import Mathlib

/-!
Verification development for the numerical engine of the `equation-to-motion`
repository (`src/mvp/model.py`): the expression validator and sandboxed
evaluator, the fixed-grid midpoint disk-method estimator, and the adaptive
Simpson quadrature.  Python floats are modelled as elements of a linear
ordered field (instantiated at `ℝ` or `ℚ` in the theorems); evaluation
failure is modelled with `Option`/`Except`.
-/

namespace Spec2Proof

section Adaptive

variable {α : Type} [LinearOrderedField α]

/-- Embedding of `_simpson_basic(a, b, fa, fb, fm)` from `src/mvp/model.py`:
`(b - a) / 6 * (fa + 4 * fm + fb)`. -/
def _simpson_basic (a b fa fb fm : α) : α :=
  (b - a) / 6 * (fa + 4 * fm + fb)

/-- Embedding of `_adaptive_simpson_recursive` from `src/mvp/model.py`.
The Python function mutates a shared `intervals` list; here the pair
returned is (integral contribution, terminal intervals appended by this
call, in order of production). -/
def _adaptive_simpson_recursive (f : α → α) (a b tol : α) (max_depth depth : ℕ)
    (fa fb fm S : α) : α × List (α × α × ℕ) :=
  let c := (a + b) / 2
  let fd := f ((a + c) / 2)
  let fe := f ((c + b) / 2)
  let S_left := _simpson_basic a c fa fm fd
  let S_right := _simpson_basic c b fm fb fe
  let S2 := S_left + S_right
  if h : max_depth ≤ depth ∨ |S2 - S| ≤ 15 * tol then
    (S2 + (S2 - S) / 15, [(a, b, depth)])
  else
    let L := _adaptive_simpson_recursive f a c (tol / 2) max_depth (depth + 1)
      fa fm fd S_left
    let R := _adaptive_simpson_recursive f c b (tol / 2) max_depth (depth + 1)
      fm fb fe S_right
    (L.1 + R.1, L.2 ++ R.2)
termination_by max_depth - depth
decreasing_by
  all_goals (simp only [not_or, not_le] at h; omega)

/-- Embedding of `_adaptive_simpson_integrate` from `src/mvp/model.py`
(`max_depth` defaults to 12 at the call site in `run_adaptive_refinement`). -/
def _adaptive_simpson_integrate (f : α → α) (a b tol : α) (max_depth : ℕ) :
    α × List (α × α × ℕ) :=
  let fa := f a
  let fb := f b
  let fm := f ((a + b) / 2)
  let S := _simpson_basic a b fa fb fm
  _adaptive_simpson_recursive f a b tol max_depth 0 fa fb fm S

end Adaptive

section ExpressionCompiler

/-- Python `ast` binary operator kinds relevant to `_validate_node`:
the whitelisted `Add, Sub, Mult, Div, Pow, Mod` plus a representative
for every other operator kind (e.g. `FloorDiv`, `BitAnd`), which the
validator rejects. -/
inductive PyBinOp
  | add | sub | mult | div | pow | mod | otherOp
deriving DecidableEq

/-- Python `ast` unary operator kinds: the whitelisted `UAdd, USub` plus a
representative for the rejected kinds (`Not`, `Invert`). -/
inductive PyUnaryOp
  | uadd | usub | otherUnary
deriving DecidableEq

/-- Values carried by a Python `ast.Constant` node.  `num` covers `int`,
`float` and `bool` (Python booleans satisfy `isinstance(-, int)`);
`strLit`, `noneLit` and `complexLit` cover string, `None` and complex
literals. -/
inductive PyConst
  | num (q : ℚ)
  | strLit (s : String)
  | noneLit
  | complexLit
deriving DecidableEq

/-- Shallow embedding of the Python `ast` expression nodes that
`_validate_node` in `src/mvp/model.py` dispatches on.  `expressionRoot` is
the `ast.Expression` wrapper produced by `ast.parse(-, mode="eval")`;
`call` records whether the call node carried any keyword arguments;
`attribute`, `lambdaExpr` and `otherNode` stand for the node kinds that
fall through to the final `else` branch of the validator. -/
inductive PyAst
  | expressionRoot (body : PyAst)
  | constant (v : PyConst)
  | name (id : String)
  | binOp (op : PyBinOp) (left right : PyAst)
  | unaryOp (op : PyUnaryOp) (operand : PyAst)
  | call (func : PyAst) (args : List PyAst) (hasKeywords : Bool)
  | attributeNode (value : PyAst) (attr : String)
  | lambdaExpr (body : PyAst)
  | otherNode

/-- The keys of `_ALLOWED_FUNCTIONS` in `src/mvp/model.py`. -/
def _ALLOWED_FUNCTIONS : List String :=
  ["sin", "cos", "tan", "asin", "acos", "atan", "exp", "log", "log10",
   "sqrt", "sinh", "cosh", "tanh", "abs"]

/-- The keys of `_ALLOWED_CONSTANTS` in `src/mvp/model.py`. -/
def _ALLOWED_CONSTANTS : List String := ["pi", "e"]

/-- Whether a binary operator is an instance of `_ALLOWED_BINOPS`. -/
def binOpAllowed : PyBinOp → Bool
  | .otherOp => false
  | _ => true

/-- Whether a unary operator is an instance of `_ALLOWED_UNARY`. -/
def unaryOpAllowed : PyUnaryOp → Bool
  | .otherUnary => false
  | _ => true

/-- The check `isinstance(node.func, ast.Name) and node.func.id in
_ALLOWED_FUNCTIONS` applied to the callee of a `Call` node. -/
def callFuncAllowed : PyAst → Bool
  | .name id => decide (id ∈ _ALLOWED_FUNCTIONS)
  | _ => false

mutual

/-- Embedding of `_validate_node` from `src/mvp/model.py`: `true` means the
node is accepted, `false` that the Python function raises `ValueError`.
Note the `Call` case checks the keyword list, that the callee is a plain
name on the function whitelist, and validates every positional argument,
but places no constraint on the number of arguments. -/
def _validate_node : PyAst → Bool
  | .expressionRoot body => _validate_node body
  | .constant (.num _) => true
  | .constant .noneLit => true
  | .constant (.strLit _) => false
  | .constant .complexLit => false
  | .name id =>
      decide (id ∈ _ALLOWED_FUNCTIONS) || decide (id ∈ _ALLOWED_CONSTANTS) ||
        decide (id = "x")
  | .binOp op l r => binOpAllowed op && _validate_node l && _validate_node r
  | .unaryOp op e => unaryOpAllowed op && _validate_node e
  | .call fn args kw =>
      !kw && callFuncAllowed fn && _validate_args args
  | .attributeNode _ _ => false
  | .lambdaExpr _ => false
  | .otherNode => false

/-- The `for arg in node.args: _validate_node(arg)` loop of the `Call`
case of `_validate_node`. -/
def _validate_args : List PyAst → Bool
  | [] => true
  | a :: rest => _validate_node a && _validate_args rest

end

/-- Embedding of the accept/reject outcome of `_compile_expression` in
`src/mvp/model.py`, taking as input the outcome of
`ast.parse(cleaned, mode="eval")` (after the caret rewrite): `none` means
the parser raised `SyntaxError`; otherwise the tree is checked by
`_validate_node`.  `true` means compilation succeeds, `false` that it
fails with an exception (the `SyntaxRejected` outcome of the spec). -/
def compile_accepts : Option PyAst → Bool
  | none => false
  | some t => _validate_node t

/-- The set of trees accepted by the validator, stated as an inductive
grammar: numeric and `None` constants, names on either whitelist or the
variable `x`, whitelisted unary/binary operators, and calls of a
whitelisted function name with no keywords and any number of positional
arguments. -/
inductive Allowed : PyAst → Prop
  | expressionRoot {b : PyAst} : Allowed b → Allowed (.expressionRoot b)
  | num (q : ℚ) : Allowed (.constant (.num q))
  | noneLit : Allowed (.constant .noneLit)
  | nameFn {id : String} : id ∈ _ALLOWED_FUNCTIONS → Allowed (.name id)
  | nameConst {id : String} : id ∈ _ALLOWED_CONSTANTS → Allowed (.name id)
  | nameVar : Allowed (.name "x")
  | binOp {op : PyBinOp} {l r : PyAst} : op ≠ .otherOp → Allowed l →
      Allowed r → Allowed (.binOp op l r)
  | unaryOp {op : PyUnaryOp} {e : PyAst} : op ≠ .otherUnary → Allowed e →
      Allowed (.unaryOp op e)
  | call {id : String} {args : List PyAst} : id ∈ _ALLOWED_FUNCTIONS →
      (∀ a ∈ args, Allowed a) → Allowed (.call (.name id) args false)

/-- The grammar exactly as claim C4 words it: numeric literals, the
variable `x`, the constants `pi` and `e`, unary `+`/`-`, the whitelisted
binary operators, and single-positional-argument calls to whitelisted
function names. -/
inductive ClaimGrammar : PyAst → Prop
  | expressionRoot {b : PyAst} : ClaimGrammar b →
      ClaimGrammar (.expressionRoot b)
  | num (q : ℚ) : ClaimGrammar (.constant (.num q))
  | nameConst {id : String} : id ∈ _ALLOWED_CONSTANTS →
      ClaimGrammar (.name id)
  | nameVar : ClaimGrammar (.name "x")
  | binOp {op : PyBinOp} {l r : PyAst} : op ≠ .otherOp → ClaimGrammar l →
      ClaimGrammar r → ClaimGrammar (.binOp op l r)
  | unaryOp {op : PyUnaryOp} {e : PyAst} : op ≠ .otherUnary →
      ClaimGrammar e → ClaimGrammar (.unaryOp op e)
  | call {id : String} {a : PyAst} : id ∈ _ALLOWED_FUNCTIONS →
      ClaimGrammar a → ClaimGrammar (.call (.name id) [a] false)

/-- Python parse of `"os.system('x')"` in eval mode:
`Expression(Call(func=Attribute(Name("os"), "system"),
args=[Constant("x")], keywords=[]))`. -/
def ast_os_system : PyAst :=
  .expressionRoot
    (.call (.attributeNode (.name "os") "system") [.constant (.strLit "x")]
      false)

/-- Python parse of `"x; y"` in eval mode: `ast.parse` raises
`SyntaxError`, so there is no tree. -/
def parse_x_semicolon_y : Option PyAst := none

/-- Python parse of `"lambda x: x"` in eval mode:
`Expression(Lambda(args, Name("x")))`. -/
def ast_lambda_x : PyAst := .expressionRoot (.lambdaExpr (.name "x"))

/-- Python parse of `"foo(x)"` in eval mode:
`Expression(Call(Name("foo"), [Name("x")], keywords=[]))`. -/
def ast_foo_x : PyAst :=
  .expressionRoot (.call (.name "foo") [.name "x"] false)

/-- Python parse of `"sin(x)**2 + 0.6*e**(0.5*x)"` (the caret-rewritten
form of `"sin(x)^2 + 0.6*e^(0.5*x)"`) in eval mode. -/
def ast_good : PyAst :=
  .expressionRoot
    (.binOp .add
      (.binOp .pow (.call (.name "sin") [.name "x"] false)
        (.constant (.num 2)))
      (.binOp .mult (.constant (.num (6 / 10)))
        (.binOp .pow (.name "e")
          (.binOp .mult (.constant (.num (5 / 10))) (.name "x")))))

/-- Python parse of `"sin(x, x)"` in eval mode: a call of a whitelisted
function with two positional arguments. -/
def ast_sin_two_args : PyAst :=
  .expressionRoot (.call (.name "sin") [.name "x", .name "x"] false)

end ExpressionCompiler

section Evaluator

variable {α : Type} [LinearOrderedField α]

/-- The value produced by `eval(code, ...)` inside the compiled closure:
a Python `int` (always finite), a `float` carrying a finiteness flag
(`finite = false` models `inf`/`nan`, which have no counterpart in an
ordered field), a `complex`, or any non-numeric object. -/
inductive PyEvalValue (α : Type)
  | intV (n : ℤ)
  | floatV (x : α) (finite : Bool)
  | complexV
  | otherV

/-- Outcome of running the compiled bytecode on one input: either it
returns a value or it raises an exception (e.g. `math domain error`,
`ZeroDivisionError`) with a message. -/
inductive PyEvalOutcome (α : Type)
  | ret (v : PyEvalValue α)
  | raised (msg : String)

/-- Embedding of the `evaluator` closure defined inside
`_compile_expression` (`src/mvp/model.py` lines 141-152).  `rawEval x`
models the `eval(code, {"__builtins__": {}}, local_scope)` step;
the wrapper then applies, in source order, the complex check, the
numeric-type check, the finiteness check, and the final `float(result)`
conversion.  `Except.error` models a raised exception reaching the
caller (the `EvaluationFailed` outcome of the spec): an exception raised
by `eval` itself propagates unchanged, and each failed check raises
`ValueError` with the quoted message. -/
def evaluator (rawEval : α → PyEvalOutcome α) (x : α) : Except String α :=
  match rawEval x with
  | .raised msg => .error msg
  | .ret .complexV =>
      .error "Expression produced complex values; only real numbers are supported."
  | .ret .otherV => .error "Expression must evaluate to a real number."
  | .ret (.intV n) => .ok (n : α)
  | .ret (.floatV v finite) =>
      if finite then .ok v else .error "Expression produced a non-finite value."

end Evaluator

section FixedGrid

variable {α : Type} [LinearOrderedField α]

/-- Result of `recompute_volume`: either the accumulated sum is stored in
`state.approx_volume` (`ok`), or an evaluation failed and the code stores
`float("nan")` there together with an error message (`nan`). -/
inductive RVolume (α : Type)
  | ok (v : α)
  | nan
deriving DecidableEq

/-- The `for i in range(...)` loop body of `recompute_volume`
(`src/mvp/model.py` lines 441-457), with `i` the next index, `k` the
number of remaining iterations and `acc` the accumulated `volume`.
The evaluator argument returns `none` when the Python call raises or
produces a non-finite value (both failure paths of the source set
`approx_volume = float("nan")` and stop). -/
def recompute_volume_loop (piv : α) (f : α → Option α) (start dx : α) :
    ℕ → ℕ → α → RVolume α
  | _, 0, acc => .ok acc
  | i, k + 1, acc =>
      match f (start + ((i : α) + 1 / 2) * dx) with
      | none => .nan
      | some radius =>
          recompute_volume_loop piv f start dx (i + 1) k
            (acc + piv * |radius| ^ 2 * dx)

/-- Embedding of `recompute_volume` from `src/mvp/model.py`
(lines 429-459): `piv` stands for the constant `math.pi`, `f` for the
active function evaluator, and `endv` for the Python local `end`. -/
def recompute_volume (piv : α) (f : α → Option α) (start endv : α) (n : ℕ) :
    RVolume α :=
  recompute_volume_loop piv f start ((endv - start) / (n : α)) 0 n 0

/-- Lifts a total function to an evaluator none of whose calls fail. -/
def someEval (g : α → α) : α → Option α := fun x => some (g x)

end FixedGrid

section DomainAndSlices

/-- Embedding of `adjust_domain` from `src/mvp/model.py` (lines 239-257),
acting on the current `(domain_start, domain_end)` pair; `1/5`, `-10`,
`10` and `-49/5` are the literals `0.2`, `-10.0`, `10.0`, `-9.8`. -/
def adjust_domain (ds de delta_start delta_end : ℚ) : ℚ × ℚ :=
  let raw_start := ds + delta_start
  let raw_end := de + delta_end
  let raw_end := if raw_end - raw_start < 1 / 5 then raw_start + 1 / 5 else raw_end
  (max (-10) (min 10 raw_start), max (-49 / 5) (min 10 raw_end))

/-- Embedding of `set_domain` from `src/mvp/model.py` (lines 260-269):
the first component is the domain stored afterwards (the `ValueError` is
raised before any mutation, so on failure the prior domain `st` is kept),
the second the raised error message, if any. -/
def set_domain (st : ℚ × ℚ) (start endv : ℚ) : (ℚ × ℚ) × Option String :=
  if start ≥ endv then
    (st, some "Domain start must be strictly less than domain end.")
  else
    ((start, endv), none)

/-- Embedding of `adjust_slice_count` from `src/mvp/model.py`
(lines 272-279): the new `state.slice_count`. -/
def adjust_slice_count (slice_count delta : ℤ) : ℤ :=
  max 4 (min 240 (slice_count + delta))

/-- Embedding of `apply_adaptive_slice_recommendation` from
`src/mvp/model.py` (lines 748-757): the new `state.slice_count`.
`if not state.adaptive_recommended_slices` is true for `None` and for
`0`, in which case the function returns without changing the count. -/
def apply_adaptive_slice_recommendation (slice_count : ℤ)
    (recommended : Option ℤ) : ℤ :=
  match recommended with
  | none => slice_count
  | some r => if r = 0 then slice_count else max 4 (min 240 r)

/-- The recommendation `max(12, len(intervals) * 2)` computed by
`run_adaptive_refinement` (`src/mvp/model.py` line 740). -/
def adaptive_recommended_slices (interval_count : ℕ) : ℤ :=
  max 12 ((interval_count : ℤ) * 2)

end DomainAndSlices

section AdaptiveSpecSide

variable {α : Type} [LinearOrderedField α]

/-- The integrand `run_adaptive_refinement` builds from the active
function evaluator (`src/mvp/model.py` lines 714-720), on the success
path: `math.pi * abs(f(x)) ** 2` (`piv` stands for `math.pi`). -/
def adaptive_integrand (piv : α) (f : α → α) : α → α :=
  fun x => piv * |f x| ^ 2

/-- One step of the adaptive recursion exactly as claim C1 words it:
bisect at `c = (a+b)/2`, evaluate the integrand at `(a+c)/2` and
`(c+b)/2`, form `S_left` and `S_right` by the basic Simpson rule over
each half and `S2 = S_left + S_right`; if depth has reached the maximum
depth or `|S2 - S| ≤ 15*tol`, record the terminal interval `(a, b, depth)`
and return `S2 + (S2 - S)/15`; otherwise return the sum of the two
recursive calls (given by `recurse`) on `(a, c)` and `(c, b)`, each with
tolerance `tol/2` and depth incremented by 1. -/
def specRefinementStep (f : α → α)
    (recurse : α → α → α → ℕ → α → α → α → α → α × List (α × α × ℕ))
    (a b tol : α) (max_depth depth : ℕ) (fa fb fm S : α) :
    α × List (α × α × ℕ) :=
  let c := (a + b) / 2
  let fd := f ((a + c) / 2)
  let fe := f ((c + b) / 2)
  let S_left := (c - a) / 6 * (fa + 4 * fd + fm)
  let S_right := (b - c) / 6 * (fm + 4 * fe + fb)
  let S2 := S_left + S_right
  if depth ≥ max_depth ∨ |S2 - S| ≤ 15 * tol then
    (S2 + (S2 - S) / 15, [(a, b, depth)])
  else
    let L := recurse a c (tol / 2) (depth + 1) fa fm fd S_left
    let R := recurse c b (tol / 2) (depth + 1) fm fb fe S_right
    (L.1 + R.1, L.2 ++ R.2)

/-- `chainFrom x l y` says the intervals in `l`, in list order, tile the
interval from `x` to `y`: the first starts at `x`, every interval is
nonempty (start strictly below end, hence the list is ascending), each
interval ends where the next begins, and the last ends at `y`. -/
def chainFrom (x : α) : List (α × α × ℕ) → α → Prop
  | [], y => x = y
  | (s, e, _) :: rest, y => x = s ∧ s < e ∧ chainFrom e rest y

end AdaptiveSpecSide

section Theorems

variable {α : Type} [LinearOrderedField α]

/-- C1: every call of the adaptive Simpson recursion behaves exactly as the
spec describes the refinement step: it bisects at `c = (a+b)/2`, evaluates
the integrand at `(a+c)/2` and `(c+b)/2`, forms `S_left` and `S_right` by
the basic Simpson rule over each half and `S2 = S_left + S_right`; if depth
has reached the maximum depth or `|S2 - S| ≤ 15*tol` it records the
terminal interval `(a, b, depth)` and returns `S2 + (S2 - S)/15`; otherwise
it returns the sum of the two recursive calls on `(a, c)` and `(c, b)`,
each with tolerance `tol/2` and depth incremented by 1. -/
theorem adaptive_recursion_matches_spec_step (f : α → α) (a b tol : α)
    (max_depth depth : ℕ) (fa fb fm S : α) :
    _adaptive_simpson_recursive f a b tol max_depth depth fa fb fm S =
      specRefinementStep f
        (fun a' b' tol' depth' fa' fb' fm' S' =>
          _adaptive_simpson_recursive f a' b' tol' max_depth depth' fa' fb' fm' S')
        a b tol max_depth depth fa fb fm S := by
  rw [_adaptive_simpson_recursive]
  simp only [specRefinementStep, _simpson_basic, ge_iff_le, dite_eq_ite]

/-- C7: each failure mode of the compiled closure (a raised exception from
the underlying computation, a complex result, a non-numeric result, a
non-finite float) yields a structured error, and a successful call returns
a real number that can only come from an `int` or a finite `float`. -/
theorem evaluator_returns_finite_real_or_error
    (rawEval : α → PyEvalOutcome α) (x y : α) (n : ℤ) (msg : String) :
    evaluator (fun _ => .raised msg) x = (.error msg : Except String α) ∧
    evaluator (fun _ => .ret .complexV) x =
      (.error "Expression produced complex values; only real numbers are supported." :
        Except String α) ∧
    evaluator (fun _ => .ret .otherV) x =
      (.error "Expression must evaluate to a real number." : Except String α) ∧
    evaluator (fun _ => .ret (.floatV y false)) x =
      (.error "Expression produced a non-finite value." : Except String α) ∧
    evaluator (fun _ => .ret (.intV n)) x = (.ok (n : α) : Except String α) ∧
    evaluator (fun _ => .ret (.floatV y true)) x = (.ok y : Except String α) ∧
    (∀ v : α, evaluator rawEval x = .ok v →
      rawEval x = .ret (.floatV v true) ∨
        ∃ m : ℤ, rawEval x = .ret (.intV m) ∧ v = (m : α)) := by
  refine ⟨rfl, rfl, rfl, rfl, rfl, rfl, ?_⟩
  intro v hv
  unfold evaluator at hv
  cases hraw : rawEval x with
  | raised m => rw [hraw] at hv; exact absurd hv (by simp)
  | ret w =>
    rw [hraw] at hv
    cases w with
    | intV m => right; exact ⟨m, rfl, by simpa using hv.symm⟩
    | floatV z fin =>
      cases fin with
      | false => exact absurd hv (by simp)
      | true =>
        left
        have hz : z = v := by simpa using hv
        rw [hz]
    | complexV => exact absurd hv (by simp)
    | otherV => exact absurd hv (by simp)

/-- Helper: any failing index in the remaining iteration range makes the
`recompute_volume` loop return the NaN marker. -/
theorem recompute_volume_loop_nan (piv : α) (f : α → Option α) (start dx : α) :
    ∀ (k i : ℕ) (acc : α),
      (∃ j : ℕ, i ≤ j ∧ j < i + k ∧ f (start + ((j : α) + 1 / 2) * dx) = none) →
      recompute_volume_loop piv f start dx i k acc = .nan := by
  intro k
  induction k with
  | zero =>
    intro i acc ⟨j, hij, hj, _⟩
    omega
  | succ k ih =>
    intro i acc ⟨j, hij, hj, hnone⟩
    rw [recompute_volume_loop]
    cases hf : f (start + ((i : α) + 1 / 2) * dx) with
    | none => rfl
    | some radius =>
      have hji : j ≠ i := by
        intro hcontra
        rw [hcontra, hf] at hnone
        exact Option.noConfusion hnone
      exact ih (i + 1) _ ⟨j, by omega, by omega, hnone⟩

/-- C3 (amended): if any midpoint evaluation fails, the whole estimate is
abandoned with the NaN marker stored as the volume — no partial sum is
produced.  (The source does not propagate an exception: it records an
error message and stores `float("nan")`.) -/
theorem recompute_volume_abandons_on_failure (piv : α) (f : α → Option α)
    (start endv : α) (n : ℕ)
    (h : ∃ j : ℕ, j < n ∧
      f (start + ((j : α) + 1 / 2) * ((endv - start) / (n : α))) = none) :
    recompute_volume piv f start endv n = .nan := by
  obtain ⟨j, hj, hnone⟩ := h
  exact recompute_volume_loop_nan piv f start _ n 0 0 ⟨j, by omega, by omega, hnone⟩

/-- Witness for C3: an evaluator failing at every point over `[0, 2]` with
4 slices leaves the NaN marker as the stored volume. -/
theorem recompute_volume_abandons_on_failure_witness :
    recompute_volume (1 : ℚ) (fun _ => none) 0 2 4 = RVolume.nan :=
  recompute_volume_abandons_on_failure 1 (fun _ => none) 0 2 4
    ⟨0, by decide, rfl⟩

/-- Counterexample for C3 as stated: on a failing evaluation the code does
not hand the caller a propagated error — `recompute_volume` returns
normally with the NaN marker stored as the volume result (together with a
message in `state.message`), so a NaN value is stored. -/
theorem recompute_volume_stores_nan_counterexample :
    recompute_volume (1 : ℚ) (fun _ => none) 0 2 4 = RVolume.nan ∧
    RVolume.nan ≠ RVolume.ok (0 : ℚ) := by
  exact ⟨rfl, by simp⟩

/-- C9 (amended): `set_domain` rejects `start ≥ end` with an error and
leaves the stored domain unchanged, and accepts `start < end`;
`adjust_domain` always produces `domain_start ≤ domain_end`, but the
inequality is not strict in general: deltas that push both raw bounds to
the upper clamp `10` yield the degenerate domain `(10, 10)`. -/
theorem domain_mutation_invariant (st : ℚ × ℚ) (s e ds de dls dle : ℚ) :
    (s ≥ e →
      set_domain st s e =
        (st, some "Domain start must be strictly less than domain end.")) ∧
    (s < e → set_domain st s e = ((s, e), none)) ∧
    (adjust_domain ds de dls dle).1 ≤ (adjust_domain ds de dls dle).2 := by
  refine ⟨fun h => by rw [set_domain, if_pos h], fun h => by
    rw [set_domain, if_neg (not_le.mpr h)], ?_⟩
  simp only [adjust_domain]
  split_ifs with h
  · exact max_le_max (by norm_num)
      (min_le_min le_rfl (by linarith))
  · push_neg at h
    exact max_le_max (by norm_num)
      (min_le_min le_rfl (by linarith))

/-- Witness for C9 (amended): concrete instances of the three conjuncts. -/
theorem domain_mutation_invariant_witness :
    set_domain ((0 : ℚ), 2) 3 1 =
      (((0 : ℚ), 2), some "Domain start must be strictly less than domain end.") ∧
    set_domain ((0 : ℚ), 2) (-1) 1 = (((-1 : ℚ), 1), none) ∧
    (adjust_domain 0 2 (21 / 2) (17 / 2)).1 ≤ (adjust_domain 0 2 (21 / 2) (17 / 2)).2 :=
  ⟨(domain_mutation_invariant ((0 : ℚ), 2) 3 1 0 0 0 0).1 (by norm_num),
   (domain_mutation_invariant ((0 : ℚ), 2) (-1) 1 0 0 0 0).2.1 (by norm_num),
   (domain_mutation_invariant ((0 : ℚ), 2) 0 0 0 2 (21 / 2) (17 / 2)).2.2⟩

/-- Counterexample for C9 as stated: starting from the valid domain
`(0, 2)`, the deltas `(+10.5, +8.5)` drive both raw bounds to the upper
clamp, and `adjust_domain` produces the degenerate domain `(10, 10)`,
violating `domain_start < domain_end`. -/
theorem adjust_domain_strictness_counterexample :
    adjust_domain 0 2 (21 / 2) (17 / 2) = (10, 10) ∧
    ¬ ((adjust_domain 0 2 (21 / 2) (17 / 2)).1 <
        (adjust_domain 0 2 (21 / 2) (17 / 2)).2) := by
  constructor
  · norm_num [adjust_domain]
  · norm_num [adjust_domain]

/-- C10: `adjust_slice_count` clamps its result into `[4, 240]` for every
delta; `apply_adaptive_slice_recommendation` clamps a stored
recommendation into `[4, 240]` (in particular a recommendation above 240,
which `max(12, interval_count * 2)` can produce, is reduced to 240), and a
slice count that was in range, or merely positive, stays so. -/
theorem slice_count_stays_clamped (sc delta r : ℤ) (recommended : Option ℤ) :
    (4 ≤ adjust_slice_count sc delta ∧ adjust_slice_count sc delta ≤ 240) ∧
    (240 < r → apply_adaptive_slice_recommendation sc (some r) = 240) ∧
    (4 ≤ sc → sc ≤ 240 →
      4 ≤ apply_adaptive_slice_recommendation sc recommended ∧
        apply_adaptive_slice_recommendation sc recommended ≤ 240) ∧
    (0 < sc → 0 < apply_adaptive_slice_recommendation sc recommended) ∧
    240 < adaptive_recommended_slices 121 := by
  refine ⟨?_, ?_, ?_, ?_, ?_⟩
  · unfold adjust_slice_count; omega
  · intro hr
    simp only [apply_adaptive_slice_recommendation]
    rw [if_neg (by omega)]
    omega
  · intro h4 h240
    cases recommended with
    | none => exact ⟨h4, h240⟩
    | some r' =>
      simp only [apply_adaptive_slice_recommendation]
      split_ifs
      · exact ⟨h4, h240⟩
      · omega
  · intro hpos
    cases recommended with
    | none => exact hpos
    | some r' =>
      simp only [apply_adaptive_slice_recommendation]
      split_ifs
      · exact hpos
      · omega
  · unfold adaptive_recommended_slices; omega

/-- Witness for C10: concrete instances, including a recommendation of 300
being reduced to 240. -/
theorem slice_count_stays_clamped_witness :
    (4 ≤ adjust_slice_count 12 1000 ∧ adjust_slice_count 12 1000 ≤ 240) ∧
    apply_adaptive_slice_recommendation 12 (some 300) = 240 ∧
    (4 ≤ apply_adaptive_slice_recommendation 12 (some 300) ∧
      apply_adaptive_slice_recommendation 12 (some 300) ≤ 240) ∧
    0 < apply_adaptive_slice_recommendation 12 (some 300) ∧
    240 < adaptive_recommended_slices 121 :=
  ⟨(slice_count_stays_clamped 12 1000 300 (some 300)).1,
   (slice_count_stays_clamped 12 1000 300 (some 300)).2.1 (by decide),
   (slice_count_stays_clamped 12 1000 300 (some 300)).2.2.1 (by decide) (by decide),
   (slice_count_stays_clamped 12 1000 300 (some 300)).2.2.2.1 (by decide),
   (slice_count_stays_clamped 12 1000 300 (some 300)).2.2.2.2⟩

/-- Helper: on an evaluator that never fails, the `recompute_volume` loop
accumulates exactly the midpoint Riemann sum. -/
theorem recompute_volume_loop_sum (piv : α) (g : α → α) (start dx : α) :
    ∀ (k i : ℕ) (acc : α),
      recompute_volume_loop piv (someEval g) start dx i k acc =
        .ok (acc + ∑ j in Finset.range k,
          piv * |g (start + (((i + j : ℕ) : α) + 1 / 2) * dx)| ^ 2 * dx) := by
  intro k
  induction k with
  | zero => intro i acc; simp [recompute_volume_loop]
  | succ k ih =>
    intro i acc
    rw [recompute_volume_loop]
    show recompute_volume_loop piv (someEval g) start dx (i + 1) k _ = _
    rw [ih (i + 1)]
    rw [Finset.sum_range_succ' (fun j =>
      piv * |g (start + (((i + j : ℕ) : α) + 1 / 2) * dx)| ^ 2 * dx) k]
    have hsum : (Finset.range k).sum (fun j =>
        piv * |g (start + (((i + 1 + j : ℕ) : α) + 1 / 2) * dx)| ^ 2 * dx) =
        (Finset.range k).sum (fun j =>
        piv * |g (start + (((i + (j + 1) : ℕ) : α) + 1 / 2) * dx)| ^ 2 * dx) := by
      apply Finset.sum_congr rfl
      intro j _
      rw [show i + 1 + j = i + (j + 1) from by omega]
    rw [hsum]
    simp only [Nat.add_zero]
    congr 1
    ring

/-- Helper: `recompute_volume` on a never-failing evaluator equals the
midpoint Riemann sum of the disk areas. -/
theorem recompute_volume_sum (piv : α) (g : α → α) (a b : α) (n : ℕ) :
    recompute_volume piv (someEval g) a b n =
      .ok (∑ i in Finset.range n,
        piv * |g (a + ((i : α) + 1 / 2) * ((b - a) / (n : α)))| ^ 2 *
          ((b - a) / (n : α))) := by
  rw [recompute_volume, recompute_volume_loop_sum]
  simp

/-- Helper: the fixed-grid estimate of a constant function is exactly
`piv * |c|^2 * (b - a)`. -/
theorem recompute_volume_const (piv c a b : α) (n : ℕ) (hn : 1 ≤ n) :
    recompute_volume piv (someEval fun _ => c) a b n =
      .ok (piv * |c| ^ 2 * (b - a)) := by
  rw [recompute_volume_sum]
  congr 1
  have hne : (n : α) ≠ 0 := Nat.cast_ne_zero.mpr (by omega)
  have hbody : ∀ i ∈ Finset.range n,
      piv * |(fun _ => c) (a + ((i : α) + 1 / 2) * ((b - a) / (n : α)))| ^ 2 *
        ((b - a) / (n : α)) =
      piv * |c| ^ 2 * ((b - a) / (n : α)) := fun i _ => rfl
  rw [Finset.sum_congr rfl hbody, Finset.sum_const, Finset.card_range,
    nsmul_eq_mul]
  field_simp

/-- Helper: the adaptive recursion on a constant integrand accepts the
whole interval at once (its refined estimate agrees exactly with the
basic one). -/
theorem adaptive_rec_const (k a b tol : α) (max_depth depth : ℕ)
    (htol : 0 ≤ tol) :
    _adaptive_simpson_recursive (fun _ => k) a b tol max_depth depth k k k
      (_simpson_basic a b k k k) = ((b - a) * k, [(a, b, depth)]) := by
  rw [_adaptive_simpson_recursive]
  simp only [_simpson_basic]
  split_ifs with h
  · simp only [Prod.mk.injEq, and_true]
    ring
  · exfalso
    apply h
    right
    rw [abs_le]
    constructor <;> (ring_nf; linarith)

/-- Helper: the adaptive integrator on a constant integrand returns
`(b - a) * k` and the single terminal interval `(a, b, 0)`. -/
theorem adaptive_integrate_const (k a b tol : α) (D : ℕ) (htol : 0 ≤ tol) :
    _adaptive_simpson_integrate (fun _ => k) a b tol D =
      ((b - a) * k, [(a, b, 0)]) := by
  simp only [_adaptive_simpson_integrate]
  exact adaptive_rec_const k a b tol D 0 htol

/-- C6: for a constant function `f(x) = c`, any domain `(a, b)`, any slice
count `n ≥ 1` and any tolerance `tol > 0`, the fixed-grid estimator and
the adaptive estimator (at any maximum depth, in particular the default
12) both return exactly `π·c²·(b - a)`, so in particular they agree. -/
theorem constant_function_exactness (c a b tol : ℝ) (n D : ℕ)
    (hn : 1 ≤ n) (htol : 0 < tol) :
    recompute_volume Real.pi (someEval fun _ => c) a b n =
      .ok (Real.pi * c ^ 2 * (b - a)) ∧
    (_adaptive_simpson_integrate (adaptive_integrand Real.pi fun _ => c)
        a b tol D).1 = Real.pi * c ^ 2 * (b - a) := by
  constructor
  · rw [recompute_volume_const Real.pi c a b n hn, sq_abs]
  · rw [show (adaptive_integrand Real.pi fun _ => c) =
      (fun _ => Real.pi * |c| ^ 2) from rfl]
    rw [adaptive_integrate_const (Real.pi * |c| ^ 2) a b tol D htol.le]
    rw [sq_abs]
    ring

/-- Witness for C6: `c = 1` on `[0, 2]` with 4 slices, tolerance `1/100`
and the default depth 12. -/
theorem constant_function_exactness_witness :
    recompute_volume Real.pi (someEval fun _ => (1 : ℝ)) 0 2 4 =
      .ok (Real.pi * (1 : ℝ) ^ 2 * (2 - 0)) ∧
    (_adaptive_simpson_integrate (adaptive_integrand Real.pi fun _ => (1 : ℝ))
        0 2 (1 / 100) 12).1 = Real.pi * (1 : ℝ) ^ 2 * (2 - 0) :=
  constant_function_exactness 1 0 2 (1 / 100) 4 12 (by norm_num) (by norm_num)

/-- Helper: the concrete scenario of claim C5 — `f(x) = x²` on `[0, 2]`
with 4 slices — evaluates to `π · 0.5 · (0.0625² + 0.5625² + 1.5625² +
3.0625²)`. -/
theorem recompute_volume_x_sq_concrete :
    recompute_volume Real.pi (someEval fun x => x ^ 2) 0 2 4 =
      .ok (Real.pi * (1 / 2) *
        ((0.0625 : ℝ) ^ 2 + (0.5625 : ℝ) ^ 2 + (1.5625 : ℝ) ^ 2 +
          (3.0625 : ℝ) ^ 2)) := by
  rw [recompute_volume_sum]
  congr 1
  rw [show (4 : ℕ) = 3 + 1 from rfl, Finset.sum_range_succ,
    Finset.sum_range_succ, Finset.sum_range_succ, Finset.sum_range_succ,
    Finset.sum_range_zero]
  norm_num
  ring

/-- C5 (amended): the fixed-grid volume is the midpoint Riemann sum of
`π·|f|²`, and in the concrete scenario (`f(x) = x²` on `[0, 2]`, 4 slices)
the volume is `π·0.5·(0.0625² + 0.5625² + 1.5625² + 3.0625²)`, which is
about 19.07 (not 19.57) within `1e-2`. -/
theorem fixed_grid_midpoint_formula (g : ℝ → ℝ) (a b : ℝ) (n : ℕ)
    (hn : 1 ≤ n) :
    recompute_volume Real.pi (someEval g) a b n =
      .ok (∑ i in Finset.range n,
        Real.pi * |g (a + ((i : ℝ) + 1 / 2) * ((b - a) / (n : ℝ)))| ^ 2 *
          ((b - a) / (n : ℝ))) ∧
    recompute_volume Real.pi (someEval fun x => x ^ 2) 0 2 4 =
      .ok (Real.pi * (1 / 2) *
        ((0.0625 : ℝ) ^ 2 + (0.5625 : ℝ) ^ 2 + (1.5625 : ℝ) ^ 2 +
          (3.0625 : ℝ) ^ 2)) ∧
    |Real.pi * (1 / 2) *
        ((0.0625 : ℝ) ^ 2 + (0.5625 : ℝ) ^ 2 + (1.5625 : ℝ) ^ 2 +
          (3.0625 : ℝ) ^ 2) - 19.07| ≤ 1 / 100 := by
  refine ⟨recompute_volume_sum Real.pi g a b n,
    recompute_volume_x_sq_concrete, ?_⟩
  rw [abs_le]
  constructor <;>
    nlinarith [Real.pi_gt_d6, Real.pi_lt_d6]

/-- Witness for C5: the theorem instantiated at the concrete scenario. -/
theorem fixed_grid_midpoint_formula_witness :
    recompute_volume Real.pi (someEval fun x => x ^ 2) 0 2 4 =
      .ok (∑ i in Finset.range 4,
        Real.pi * |(fun x => x ^ 2) ((0 : ℝ) + ((i : ℝ) + 1 / 2) * ((2 - 0) / (4 : ℝ)))| ^ 2 *
          ((2 - 0) / (4 : ℝ))) ∧
    recompute_volume Real.pi (someEval fun x => x ^ 2) 0 2 4 =
      .ok (Real.pi * (1 / 2) *
        ((0.0625 : ℝ) ^ 2 + (0.5625 : ℝ) ^ 2 + (1.5625 : ℝ) ^ 2 +
          (3.0625 : ℝ) ^ 2)) ∧
    |Real.pi * (1 / 2) *
        ((0.0625 : ℝ) ^ 2 + (0.5625 : ℝ) ^ 2 + (1.5625 : ℝ) ^ 2 +
          (3.0625 : ℝ) ^ 2) - 19.07| ≤ 1 / 100 :=
  fixed_grid_midpoint_formula (fun x => x ^ 2) 0 2 4 (by norm_num)

/-- Counterexample for C5 as stated: the concretely computed volume
`π·0.5·(0.0625² + 0.5625² + 1.5625² + 3.0625²) = π·777/128 ≈ 19.0704` is
not within `1e-2` of 19.57. -/
theorem fixed_grid_value_not_19_57_counterexample :
    recompute_volume Real.pi (someEval fun x => x ^ 2) 0 2 4 =
      .ok (Real.pi * (1 / 2) *
        ((0.0625 : ℝ) ^ 2 + (0.5625 : ℝ) ^ 2 + (1.5625 : ℝ) ^ 2 +
          (3.0625 : ℝ) ^ 2)) ∧
    ¬ (|Real.pi * (1 / 2) *
        ((0.0625 : ℝ) ^ 2 + (0.5625 : ℝ) ^ 2 + (1.5625 : ℝ) ^ 2 +
          (3.0625 : ℝ) ^ 2) - 19.57| ≤ 1 / 100) := by
  refine ⟨recompute_volume_x_sq_concrete, ?_⟩
  rw [not_le]
  have hlt : Real.pi * (1 / 2) *
      ((0.0625 : ℝ) ^ 2 + (0.5625 : ℝ) ^ 2 + (1.5625 : ℝ) ^ 2 +
        (3.0625 : ℝ) ^ 2) - 19.57 < 0 := by
    nlinarith [Real.pi_lt_d2]
  rw [abs_of_neg hlt]
  nlinarith [Real.pi_lt_d2]

/-- Helper: consecutive tilings concatenate into one tiling. -/
theorem chainFrom_append {y z : α} {l₂ : List (α × α × ℕ)} :
    ∀ {l₁ : List (α × α × ℕ)} {x : α}, chainFrom x l₁ y → chainFrom y l₂ z →
      chainFrom x (l₁ ++ l₂) z := by
  intro l₁
  induction l₁ with
  | nil =>
    intro x h₁ h₂
    rw [chainFrom] at h₁
    rwa [List.nil_append, h₁]
  | cons hd tl ih =>
    intro x h₁ h₂
    obtain ⟨s, e, d⟩ := hd
    rw [chainFrom] at h₁
    obtain ⟨hx, hse, htl⟩ := h₁
    rw [List.cons_append, chainFrom]
    exact ⟨hx, hse, ih htl h₂⟩

/-- Helper: every interval in a tiling starts at or after the left end. -/
theorem chainFrom_start_le {y : α} :
    ∀ {l : List (α × α × ℕ)} {x : α}, chainFrom x l y →
      ∀ p ∈ l, x ≤ p.1 := by
  intro l
  induction l with
  | nil => intro x _ p hp; exact absurd hp (List.not_mem_nil p)
  | cons hd tl ih =>
    intro x h p hp
    obtain ⟨s, e, d⟩ := hd
    rw [chainFrom] at h
    obtain ⟨hx, hse, htl⟩ := h
    rcases List.mem_cons.mp hp with hp | hp
    · rw [hp, hx]
    · exact hx ▸ le_trans hse.le (ih htl p hp)

/-- Helper: the starts of a tiling are strictly increasing along the list. -/
theorem chainFrom_pairwise {y : α} :
    ∀ {l : List (α × α × ℕ)} {x : α}, chainFrom x l y →
      List.Pairwise (fun p q : α × α × ℕ => p.1 < q.1) l := by
  intro l
  induction l with
  | nil => intro x _; exact List.Pairwise.nil
  | cons hd tl ih =>
    intro x h
    obtain ⟨s, e, d⟩ := hd
    rw [chainFrom] at h
    obtain ⟨hx, hse, htl⟩ := h
    refine List.Pairwise.cons ?_ (ih htl)
    intro q hq
    exact lt_of_lt_of_le hse (chainFrom_start_le htl q hq)

/-- Helper: for `a < b` the terminal intervals produced by the adaptive
recursion tile `(a, b)` in production order.  The auxiliary parameter `n`
bounds the remaining depth budget `max_depth - depth` for the induction. -/
theorem adaptive_rec_chainFrom_aux (f : α → α) (max_depth : ℕ) :
    ∀ (n : ℕ) (a b tol : α) (depth : ℕ) (fa fb fm S : α),
      max_depth - depth ≤ n → a < b →
      chainFrom a
        (_adaptive_simpson_recursive f a b tol max_depth depth fa fb fm S).2
        b := by
  intro n
  induction n with
  | zero =>
    intro a b tol depth fa fb fm S hn hab
    rw [_adaptive_simpson_recursive]
    simp only [_simpson_basic]
    rw [dif_pos (Or.inl (by omega))]
    rw [chainFrom]
    exact ⟨rfl, hab, rfl⟩
  | succ n ih =>
    intro a b tol depth fa fb fm S hn hab
    rw [_adaptive_simpson_recursive]
    simp only [_simpson_basic]
    split_ifs with h
    · rw [chainFrom]
      exact ⟨rfl, hab, rfl⟩
    · have hd : depth < max_depth := by
        rcases not_or.mp h with ⟨h1, _⟩
        omega
      have hac : a < (a + b) / 2 := by linarith
      have hcb : (a + b) / 2 < b := by linarith
      exact chainFrom_append
        (ih a ((a + b) / 2) (tol / 2) (depth + 1) _ _ _ _ (by omega) hac)
        (ih ((a + b) / 2) b (tol / 2) (depth + 1) _ _ _ _ (by omega) hcb)

/-- Helper: unbounded-fuel form of `adaptive_rec_chainFrom_aux`. -/
theorem adaptive_rec_chainFrom (f : α → α) (a b tol : α)
    (max_depth depth : ℕ) (fa fb fm S : α) (hab : a < b) :
    chainFrom a
      (_adaptive_simpson_recursive f a b tol max_depth depth fa fb fm S).2
      b :=
  adaptive_rec_chainFrom_aux f max_depth (max_depth - depth) a b tol depth
    fa fb fm S le_rfl hab

/-- C2: for every adaptive run over a domain `(a, b)` with `a < b`, the
returned terminal intervals, in the order produced, exactly tile `(a, b)`:
`chainFrom` states that the first interval starts at `a`, each interval is
nonempty and ends where the next starts, and the last ends at `b`; the
`Pairwise` conjunct states the list is already sorted in ascending
left-to-right order. -/
theorem adaptive_intervals_tile_domain (f : α → α) (a b tol : α) (D : ℕ)
    (hab : a < b) :
    chainFrom a (_adaptive_simpson_integrate f a b tol D).2 b ∧
    List.Pairwise (fun p q : α × α × ℕ => p.1 < q.1)
      (_adaptive_simpson_integrate f a b tol D).2 := by
  have h : chainFrom a (_adaptive_simpson_integrate f a b tol D).2 b := by
    rw [_adaptive_simpson_integrate]
    exact adaptive_rec_chainFrom f a b tol D 0 _ _ _ _ hab
  exact ⟨h, chainFrom_pairwise h⟩

/-- Witness for C2: a concrete run over `(0, 2)`. -/
theorem adaptive_intervals_tile_domain_witness :
    chainFrom (0 : ℚ)
      (_adaptive_simpson_integrate (fun _ => (1 : ℚ)) 0 2 1 12).2 2 ∧
    List.Pairwise (fun p q : ℚ × ℚ × ℕ => p.1 < q.1)
      (_adaptive_simpson_integrate (fun _ => (1 : ℚ)) 0 2 1 12).2 :=
  adaptive_intervals_tile_domain (fun _ => (1 : ℚ)) 0 2 1 12 (by norm_num)

/-- Helper: once depth reaches `max_depth` the recursion accepts the
interval immediately, producing the single terminal interval
`(a, b, depth)`. -/
theorem adaptive_rec_at_max_depth (f : α → α) (a b tol : α)
    (max_depth depth : ℕ) (fa fb fm S : α) (h : max_depth ≤ depth) :
    (_adaptive_simpson_recursive f a b tol max_depth depth fa fb fm S).2 =
      [(a, b, depth)] := by
  rw [_adaptive_simpson_recursive]
  simp only [_simpson_basic]
  rw [dif_pos (Or.inl h)]

/-- Helper: the terminal interval list is never empty and has at most
`2 ^ (max_depth - depth)` entries, and (when starting at a depth within
budget) every recorded depth is at most `max_depth`. -/
theorem adaptive_rec_bounds_aux (f : α → α) (max_depth : ℕ) :
    ∀ (n : ℕ) (a b tol : α) (depth : ℕ) (fa fb fm S : α),
      max_depth - depth ≤ n →
      (1 ≤ (_adaptive_simpson_recursive f a b tol max_depth depth
              fa fb fm S).2.length ∧
        (_adaptive_simpson_recursive f a b tol max_depth depth
              fa fb fm S).2.length ≤ 2 ^ (max_depth - depth) ∧
        (depth ≤ max_depth →
          ∀ p ∈ (_adaptive_simpson_recursive f a b tol max_depth depth
              fa fb fm S).2, p.2.2 ≤ max_depth)) := by
  intro n
  induction n with
  | zero =>
    intro a b tol depth fa fb fm S hn
    rw [adaptive_rec_at_max_depth f a b tol max_depth depth fa fb fm S
      (by omega)]
    refine ⟨by simp, by simpa using Nat.one_le_two_pow, fun hd p hp => ?_⟩
    rw [List.mem_singleton.mp hp]
    exact hd
  | succ n ih =>
    intro a b tol depth fa fb fm S hn
    rw [_adaptive_simpson_recursive]
    simp only [_simpson_basic]
    split_ifs with h
    · refine ⟨by simp, by simpa using Nat.one_le_two_pow, fun hd p hp => ?_⟩
      rw [List.mem_singleton.mp hp]
      exact hd
    · have hd : depth < max_depth := by
        rcases not_or.mp h with ⟨h1, _⟩
        omega
      obtain ⟨hL1, hL2, hL3⟩ :=
        ih a ((a + b) / 2) (tol / 2) (depth + 1) fa fm
          (f ((a + (a + b) / 2) / 2))
          (((a + b) / 2 - a) / 6 * (fa + 4 * f ((a + (a + b) / 2) / 2) + fm))
          (by omega)
      obtain ⟨hR1, hR2, hR3⟩ :=
        ih ((a + b) / 2) b (tol / 2) (depth + 1) fm fb
          (f (((a + b) / 2 + b) / 2))
          ((b - (a + b) / 2) / 6 * (fm + 4 * f (((a + b) / 2 + b) / 2) + fb))
          (by omega)
      rw [List.length_append] at *
      refine ⟨by omega, ?_, ?_⟩
      · have hpow : 2 ^ (max_depth - (depth + 1)) +
            2 ^ (max_depth - (depth + 1)) = 2 ^ (max_depth - depth) := by
          rw [show max_depth - depth = (max_depth - (depth + 1)) + 1 from
            by omega, pow_succ]
          omega
        omega
      · intro _ p hp
        rcases List.mem_append.mp hp with hp | hp
        · exact hL3 (by omega) p hp
        · exact hR3 (by omega) p hp

/-- C8: the adaptive recursion is depth-bounded — at depth `≥ D` an
interval is always accepted as terminal, so recursion never exceeds the
depth budget — and every run with the default `D = 12` produces at least
1 and at most `2^12` terminal intervals, each recorded at depth at most
12. -/
theorem adaptive_termination_and_interval_bounds (f g : α → α)
    (a b tol a' b' tol' : α) (max_depth depth : ℕ) (fa fb fm S : α)
    (h : max_depth ≤ depth) :
    (_adaptive_simpson_recursive g a' b' tol' max_depth depth fa fb fm S).2 =
      [(a', b', depth)] ∧
    1 ≤ (_adaptive_simpson_integrate f a b tol 12).2.length ∧
    (_adaptive_simpson_integrate f a b tol 12).2.length ≤ 2 ^ 12 ∧
    ∀ p ∈ (_adaptive_simpson_integrate f a b tol 12).2, p.2.2 ≤ 12 := by
  have hbounds := adaptive_rec_bounds_aux f 12 12 a b tol 0 (f a) (f b)
    (f ((a + b) / 2)) (_simpson_basic a b (f a) (f b) (f ((a + b) / 2)))
    le_rfl
  have hint : _adaptive_simpson_integrate f a b tol 12 =
      _adaptive_simpson_recursive f a b tol 12 0 (f a) (f b)
        (f ((a + b) / 2)) (_simpson_basic a b (f a) (f b) (f ((a + b) / 2))) :=
    rfl
  rw [hint]
  exact ⟨adaptive_rec_at_max_depth g a' b' tol' max_depth depth fa fb fm S h,
    hbounds.1, hbounds.2.1, hbounds.2.2 (by omega)⟩

/-- Witness for C8: concrete instances over `ℚ`. -/
theorem adaptive_termination_and_interval_bounds_witness :
    (_adaptive_simpson_recursive (fun _ => (1 : ℚ)) 0 1 1 12 12
        1 1 1 1).2 = [((0 : ℚ), (1 : ℚ), 12)] ∧
    1 ≤ (_adaptive_simpson_integrate (fun x => x) (0 : ℚ) 2 1 12).2.length ∧
    (_adaptive_simpson_integrate (fun x => x) (0 : ℚ) 2 1 12).2.length ≤ 2 ^ 12 ∧
    ∀ p ∈ (_adaptive_simpson_integrate (fun x => x) (0 : ℚ) 2 1 12).2,
      p.2.2 ≤ 12 :=
  adaptive_termination_and_interval_bounds (fun x => x) (fun _ => (1 : ℚ))
    0 2 1 0 1 1 12 12 1 1 1 1 le_rfl

/-- Helper: the argument-list loop accepts exactly the lists all of whose
members the validator accepts. -/
theorem _validate_args_eq_true_iff (l : List PyAst) :
    _validate_args l = true ↔ ∀ a ∈ l, _validate_node a = true := by
  induction l with
  | nil => simp [_validate_args]
  | cons hd tl ih =>
    rw [_validate_args, Bool.and_eq_true, ih, List.forall_mem_cons]

/-- Helper: the validator accepts exactly the trees of the `Allowed`
grammar. -/
theorem _validate_node_iff_allowed :
    ∀ t : PyAst, _validate_node t = true ↔ Allowed t := by
  have key : ∀ (N : ℕ) (t : PyAst), sizeOf t ≤ N →
      (_validate_node t = true ↔ Allowed t) := by
    intro N
    induction N with
    | zero =>
      intro t ht
      exfalso
      cases t <;> simp at ht
    | succ N ih =>
      intro t ht
      cases t with
      | expressionRoot b =>
        have hb := ih b (by simp at ht; omega)
        rw [_validate_node, hb]
        constructor
        · exact Allowed.expressionRoot
        · intro h; cases h with | expressionRoot h1 => exact h1
      | constant v =>
        cases v with
        | num q => exact ⟨fun _ => Allowed.num q, fun _ => by rw [_validate_node]⟩
        | noneLit => exact ⟨fun _ => Allowed.noneLit, fun _ => by rw [_validate_node]⟩
        | strLit s =>
          constructor
          · intro h; rw [_validate_node] at h; exact absurd h (by simp)
          · intro h; cases h
        | complexLit =>
          constructor
          · intro h; rw [_validate_node] at h; exact absurd h (by simp)
          · intro h; cases h
      | name id =>
        rw [_validate_node]
        simp only [Bool.or_eq_true, decide_eq_true_eq]
        constructor
        · rintro ((h | h) | h)
          · exact Allowed.nameFn h
          · exact Allowed.nameConst h
          · rw [h]; exact Allowed.nameVar
        · intro h
          cases h with
          | nameFn h1 => exact Or.inl (Or.inl h1)
          | nameConst h1 => exact Or.inl (Or.inr h1)
          | nameVar => exact Or.inr rfl
      | binOp op l r =>
        have hl := ih l (by simp at ht; omega)
        have hr := ih r (by simp at ht; omega)
        rw [_validate_node]
        simp only [Bool.and_eq_true, hl, hr]
        constructor
        · rintro ⟨⟨hop, hL⟩, hR⟩
          refine Allowed.binOp ?_ hL hR
          cases op <;> simp_all [binOpAllowed]
        · intro h
          cases h with
          | binOp hop hL hR =>
            refine ⟨⟨?_, hL⟩, hR⟩
            cases op <;> simp_all [binOpAllowed]
      | unaryOp op e =>
        have he := ih e (by simp at ht; omega)
        rw [_validate_node]
        simp only [Bool.and_eq_true, he]
        constructor
        · rintro ⟨hop, hE⟩
          refine Allowed.unaryOp ?_ hE
          cases op <;> simp_all [unaryOpAllowed]
        · intro h
          cases h with
          | unaryOp hop hE =>
            refine ⟨?_, hE⟩
            cases op <;> simp_all [unaryOpAllowed]
      | call fn args kw =>
        have hargsize : ∀ a ∈ args, sizeOf a ≤ N := by
          intro a ha
          have h1 := List.sizeOf_lt_of_mem ha
          simp at ht
          omega
        rw [_validate_node]
        simp only [Bool.and_eq_true, Bool.not_eq_true',
          _validate_args_eq_true_iff]
        constructor
        · rintro ⟨⟨hkw, hfn⟩, hargs⟩
          subst hkw
          cases fn with
          | name id =>
            simp only [callFuncAllowed, decide_eq_true_eq] at hfn
            exact Allowed.call hfn
              (fun a ha => (ih a (hargsize a ha)).mp (hargs a ha))
          | expressionRoot b => simp [callFuncAllowed] at hfn
          | constant v => simp [callFuncAllowed] at hfn
          | binOp op l r => simp [callFuncAllowed] at hfn
          | unaryOp op e => simp [callFuncAllowed] at hfn
          | call fn2 args2 kw2 => simp [callFuncAllowed] at hfn
          | attributeNode v attr => simp [callFuncAllowed] at hfn
          | lambdaExpr b => simp [callFuncAllowed] at hfn
          | otherNode => simp [callFuncAllowed] at hfn
        · intro h
          cases h with
          | call hid hall =>
            refine ⟨⟨rfl, ?_⟩,
              fun a ha => (ih a (hargsize a ha)).mpr (hall a ha)⟩
            simp [callFuncAllowed, hid]
      | attributeNode v attr =>
        constructor
        · intro h; rw [_validate_node] at h; exact absurd h (by simp)
        · intro h; cases h
      | lambdaExpr b =>
        constructor
        · intro h; rw [_validate_node] at h; exact absurd h (by simp)
        · intro h; cases h
      | otherNode =>
        constructor
        · intro h; rw [_validate_node] at h; exact absurd h (by simp)
        · intro h; cases h
  exact fun t => key (sizeOf t) t le_rfl

/-- C4 (amended): the validator accepts exactly the `Allowed` grammar —
which admits whitelisted function calls with any number of positional
arguments (and also `None` constants and bare whitelisted function
names), not only single-positional-argument calls; the four ill-formed
inputs of the claim are each rejected (so compilation fails), the
well-formed example is accepted, and so is the two-argument call
`sin(x, x)`. -/
theorem expression_grammar_validation (t : PyAst) :
    (_validate_node t = true ↔ Allowed t) ∧
    compile_accepts (some ast_os_system) = false ∧
    compile_accepts parse_x_semicolon_y = false ∧
    compile_accepts (some ast_lambda_x) = false ∧
    compile_accepts (some ast_foo_x) = false ∧
    compile_accepts (some ast_good) = true ∧
    compile_accepts (some ast_sin_two_args) = true :=
  ⟨_validate_node_iff_allowed t, by decide, rfl, by decide, by decide,
    by decide, by decide⟩

/-- Witness for C4: the characterisation instantiated at the accepted
example tree. -/
theorem expression_grammar_validation_witness :
    (_validate_node ast_good = true ↔ Allowed ast_good) ∧
    compile_accepts (some ast_os_system) = false ∧
    compile_accepts parse_x_semicolon_y = false ∧
    compile_accepts (some ast_lambda_x) = false ∧
    compile_accepts (some ast_foo_x) = false ∧
    compile_accepts (some ast_good) = true ∧
    compile_accepts (some ast_sin_two_args) = true :=
  expression_grammar_validation ast_good

/-- Counterexample for C4 as stated: the two-positional-argument call
`sin(x, x)` is outside the claimed grammar (which only admits
single-positional-argument calls), yet the validator accepts it and
compilation succeeds rather than failing with `SyntaxRejected`. -/
theorem call_arity_not_checked_counterexample :
    ¬ ClaimGrammar ast_sin_two_args ∧
    _validate_node ast_sin_two_args = true ∧
    compile_accepts (some ast_sin_two_args) = true := by
  refine ⟨?_, by decide, by decide⟩
  intro h
  cases h with
  | expressionRoot h' => cases h'

/-- Witness for C7: the evaluator at concrete rational inputs — a raised
exception, a complex result and a non-finite float each yield an error,
and a finite float yields its value. -/
theorem evaluator_returns_finite_real_or_error_witness :
    evaluator (fun _ => .raised "math domain error") (0 : ℚ) =
      (.error "math domain error" : Except String ℚ) ∧
    evaluator (fun _ => .ret .complexV) (0 : ℚ) =
      (.error "Expression produced complex values; only real numbers are supported." :
        Except String ℚ) ∧
    evaluator (fun _ => .ret (.floatV (3 : ℚ) false)) 0 =
      (.error "Expression produced a non-finite value." : Except String ℚ) ∧
    evaluator (fun _ => .ret (.floatV (3 : ℚ) true)) 0 =
      (.ok (3 : ℚ) : Except String ℚ) :=
  ⟨(evaluator_returns_finite_real_or_error (fun _ => .ret .complexV) 0 3 0
      "math domain error").1,
   (evaluator_returns_finite_real_or_error (fun _ => .ret .complexV) 0 3 0
      "math domain error").2.1,
   (evaluator_returns_finite_real_or_error (fun _ => .ret .complexV) 0 3 0
      "math domain error").2.2.2.1,
   (evaluator_returns_finite_real_or_error (fun _ => .ret .complexV) 0 3 0
      "math domain error").2.2.2.2.2.1⟩

end Theorems

end Spec2Proof
